import Mathlib

/-!
Verification of the sshproxy repository (github.com/wzshiming/sshproxy).

This file shallowly embeds the parts of the source relevant to the frozen
claims:

* the fine-grained permission engine (`permissions` package:
  `Permissions.Allow`, `Permission.Allow`, `PermissionsFromFile`);
* the bounded connection pool of the channel-based `Dialer` iteration
  (`getClient` / `putClient`, `conns` counter, `clients` channel);
* the error-classified, non-retrying operations of the current
  `client.go` `Dialer` (`GetClient`/`PutClient` over a `sync.Pool`,
  `DialContext`, `isSSHError`);
* `buildCmd` with Go's `strconv.Quote` (ASCII fragment);
* the authentication-configuration decision of `serverConfig`
  (`simple_server.go`), and the host-key policy of `parseClientConfig`.

External collaborators (the ssh wire library, `os.ReadFile`,
`encoding/json`, the system clock) are modelled as explicit inputs: a
file read yields one of "does not exist", "read error other than
not-exist", or "content whose JSON parse result is the given optional
document"; the clock is a `Nat` of nanoseconds passed in by the caller.
-/

namespace Sshproxy

/-! ## Permission engine (`permissions` package, src/unnamed/part_002) -/

/-- One permission rule, mirroring the Go struct
`Permission{Default bool; Allows []string; Blocks []string}`.
A Go `nil` slice is `none`; a present (possibly empty) slice is `some`. -/
structure Permission where
  dflt : Bool
  allows : Option (List String)
  blocks : Option (List String)
  deriving DecidableEq

/-- A permission document: the Go `map[string]Permission`, modelled as an
association list with `lookup` as map access. -/
def Permissions := List (String × Permission)

instance : DecidableEq Permissions := by
  unfold Permissions
  infer_instance

/-- `Permission.Allow` from the source: if `Allows` is non-nil, allow
exactly on membership; else if `Blocks` is non-nil, allow exactly on
non-membership; else return `Default`. -/
def Permission.Allow (p : Permission) (_req args : String) : Bool :=
  match p.allows with
  | some l => l.contains args
  | none =>
    match p.blocks with
    | some l => !(l.contains args)
    | none => p.dflt

/-- `Permissions.Allow` from the source: look the resource up in the map;
a resource with no rule denies. -/
def Permissions.Allow (p : Permissions) (req args : String) : Bool :=
  match List.lookup req p with
  | none => false
  | some permission => permission.Allow req args

/-! ## Time-windowed permission cache (`PermissionsFromFile`)

Durations and instants are nanosecond counts (`Nat`), matching Go's
`time.Duration`/monotonic clock.  `os.ReadFile` + `json.Unmarshal` are
external collaborators; one call to them is modelled by a `FileRead`
value supplied by the environment: the file is missing, unreadable for
another reason, or readable with a given parse result (`none` when the
bytes do not unmarshal to a document, i.e. invalid or literal-null JSON;
`some doc` otherwise, `some []` for an empty object). -/

/-- Outcome of one `os.ReadFile` + `json.Unmarshal` attempt. -/
inductive FileRead where
  | notExist
  | otherError
  | content (parsed : Option Permissions)
  deriving DecidableEq

/-- One nanosecond-denominated second, Go's `time.Second`. -/
def second : Nat := 1000000000

/-- Mutable state of a `PermissionsFromFile` value: the cached document
pointer (`none` = Go `nil`), the refresh period, and the time of the
last successful `update`. -/
structure PermissionsFromFile where
  permissions : Option Permissions
  period : Nat
  latestTime : Nat
  deriving DecidableEq

/-- `NewPermissionsFromFile`: the refresh period is floored at one
second; the cache starts empty with a zero timestamp. -/
def NewPermissionsFromFile (period : Nat) : PermissionsFromFile :=
  { permissions := none
    period := if period < second then second else period
    latestTime := 0 }

/-- `PermissionsFromFile.update`: read the file.  A not-exist error
returns `false` leaving the state untouched; any other read error, or a
failed unmarshal, falls through with a `nil` document; then the cached
document is overwritten by the parse result and the timestamp set to
`now`, returning `true`. -/
def PermissionsFromFile.update (s : PermissionsFromFile) (file : FileRead)
    (now : Nat) : Bool × PermissionsFromFile :=
  match file with
  | .notExist => (false, s)
  | .otherError => (true, { s with permissions := none, latestTime := now })
  | .content parsed => (true, { s with permissions := parsed, latestTime := now })

/-- Result of `PermissionsFromFile.check`: the document handed back (if
any), the post-state, and whether an `update` (reload) was attempted. -/
structure CheckResult where
  perm : Option Permissions
  state : PermissionsFromFile
  didUpdate : Bool
  deriving DecidableEq

/-- `PermissionsFromFile.check`: if no document is cached or the cache
is older than the period, run `update` and re-examine; hand the cached
document back only when it is present and fresh. -/
def PermissionsFromFile.check (s : PermissionsFromFile) (file : FileRead)
    (now : Nat) : CheckResult :=
  if s.permissions = none ∨ now - s.latestTime > s.period then
    let u := s.update file now
    if !u.1 then ⟨none, u.2, true⟩
    else if u.2.permissions = none ∨ now - u.2.latestTime > u.2.period then
      ⟨none, u.2, true⟩
    else ⟨u.2.permissions, u.2, true⟩
  else ⟨s.permissions, s, false⟩

/-- Result of one `PermissionsFromFile.Allow` call. -/
structure AllowResult where
  result : Bool
  state : PermissionsFromFile
  didUpdate : Bool
  deriving DecidableEq

/-- `PermissionsFromFile.Allow`: deny when `check` yields no document,
otherwise evaluate the document. -/
def PermissionsFromFile.Allow (s : PermissionsFromFile) (file : FileRead)
    (now : Nat) (req args : String) : AllowResult :=
  let c := s.check file now
  match c.perm with
  | none => ⟨false, c.state, c.didUpdate⟩
  | some doc => ⟨doc.Allow req args, c.state, c.didUpdate⟩

/-! ## Bounded connection pool (channel-based `Dialer` iteration,
src/unnamed/part_003 first file)

That `Dialer` keeps an atomic counter `conns` and a buffered channel
`clients` of capacity `N` (5 in `NewDialerWithConfig`).  Transport
handles are numbered by creation order (`nextId`); the handle sets are
tracked explicitly so the idle/checked-out/destroyed partition can be
stated.  The ssh handshake (`sshClient`) and context cancellation are
environment inputs to `getClient`. -/

/-- Pool state: `conns` is the atomic live counter `d.conns`, `idle`
the contents of the `clients` channel in FIFO order, `checkedOut` the
handles currently lent to callers, `destroyed` the handles whose
holders closed them, `nextId` the next fresh handle number. -/
structure PoolState where
  conns : Nat
  idle : List Nat
  checkedOut : List Nat
  destroyed : List Nat
  nextId : Nat
  deriving DecidableEq

/-- The freshly constructed pool of `NewDialerWithConfig`: no live
connections, empty channel. -/
def initPool : PoolState :=
  { conns := 0, idle := [], checkedOut := [], destroyed := [], nextId := 0 }

/-- Outcome of one `getClient` call. -/
inductive GetResult where
  | got (h : Nat)
  | cancelledErr
  | dialErr
  | blocked
  deriving DecidableEq

/-- `Dialer.getClient` against capacity `N = cap(d.clients)`.

If `conns >= N` the call enters a `select` on `ctx.Done()` and the
channel: with an empty channel it blocks until cancellation; with a
non-empty channel and a cancelled context the `select` picks either
ready case (`cancelFirst` resolves the race).  Otherwise `conns` is
incremented, the handshake runs, and on handshake failure `conns` is
decremented back. -/
def getClient (N : Nat) (s : PoolState) (cancelled cancelFirst dialOk : Bool) :
    GetResult × PoolState :=
  if N ≤ s.conns then
    match s.idle, cancelled with
    | [], true => (.cancelledErr, s)
    | [], false => (.blocked, s)
    | h :: rest, c =>
      if c && cancelFirst then (.cancelledErr, s)
      else (.got h, { s with idle := rest, checkedOut := h :: s.checkedOut })
  else
    let s1 := { s with conns := s.conns + 1 }
    if dialOk then
      (.got s.nextId,
        { s1 with checkedOut := s.nextId :: s.checkedOut, nextId := s.nextId + 1 })
    else
      (.dialErr, { s1 with conns := s1.conns - 1 })

/-- `Dialer.putClient`: send the handle back on the `clients` channel
(append at the queue's tail). -/
def putClient (s : PoolState) (h : Nat) : PoolState :=
  { s with idle := s.idle ++ [h], checkedOut := s.checkedOut.erase h }

/-- A caller closing a checked-out handle: the handle is gone but the
code has no path decrementing `conns` for it. -/
def destroyClient (s : PoolState) (h : Nat) : PoolState :=
  { s with checkedOut := s.checkedOut.erase h, destroyed := h :: s.destroyed }

/-- One pool operation of a trace: an acquire with its environment
choices, a release of a held handle, or a holder destroying its
handle. -/
inductive PoolOp where
  | acquire (cancelled cancelFirst dialOk : Bool)
  | release (h : Nat)
  | destroy (h : Nat)
  deriving DecidableEq

/-- Apply one operation.  `release`/`destroy` only fire for a handle the
issuing caller actually holds (it is checked out); the channel send in
`putClient` additionally needs channel room, which the invariant shows
is always available. -/
def applyOp (N : Nat) (s : PoolState) : PoolOp → PoolState
  | .acquire c cf dOk => (getClient N s c cf dOk).2
  | .release h => if h ∈ s.checkedOut ∧ s.idle.length < N then putClient s h else s
  | .destroy h => if h ∈ s.checkedOut then destroyClient s h else s

/-- The pool state after a sequence of operations, starting from the
fresh pool. -/
def runPool (N : Nat) (ops : List PoolOp) : PoolState :=
  ops.foldl (applyOp N) initPool

/-- All handles the pool has created, in their three disjoint places. -/
def PoolState.allHandles (s : PoolState) : List Nat :=
  s.idle ++ s.checkedOut ++ s.destroyed

/-- Number of live (non-destroyed) transports. -/
def PoolState.liveCount (s : PoolState) : Nat :=
  s.idle.length + s.checkedOut.length

/-- The pool invariant: the counter never exceeds capacity, it accounts
for every handle ever created and not yet double-counted, the three
handle sets are disjoint with no duplicates (each live handle is idle
or held by exactly one caller, each destroyed handle in neither), and
every handle number is in range. -/
def PoolInv (N : Nat) (s : PoolState) : Prop :=
  s.conns ≤ N ∧
  s.idle.length + s.checkedOut.length + s.destroyed.length = s.conns ∧
  s.allHandles.Nodup ∧
  ∀ h ∈ s.allHandles, h < s.nextId

/-! ## Current `Dialer` (src/client.go): `sync.Pool` of clients, error
classification, no retry

`GetClient` takes a pooled client when one is present, otherwise runs
the ssh handshake (`sshClient`, an environment input).  `PutClient`
returns a client to the pool.  Operation failures are classified by
`isSSHError` on the error text; the handle is released on a protocol
("ssh: ") error and closed otherwise, and the error is returned.  The
environment supplies the outcome of each potential channel-open attempt
as `none` (success) or `some msg` (failure with that error text), so
the number of attempts an operation actually consumes is observable. -/

/-- `isSSHError` from src/client.go: does the error text contain the
substring `"ssh: "`. -/
def isSSHError (msg : String) : Bool :=
  decide (List.IsInfix "ssh: ".data msg.data)

/-- State of the `client.go` `Dialer`: the `sync.Pool` contents, the
clients closed so far, and the next fresh client number. -/
structure ClientDialer where
  pool : List Nat
  destroyed : List Nat
  nextId : Nat
  deriving DecidableEq

/-- `Dialer.GetClient`: a pooled client if available, else a fresh
handshake (whose success `dialOk` is an environment input). -/
def ClientDialer.GetClient (d : ClientDialer) (dialOk : Bool) :
    Option Nat × ClientDialer :=
  match d.pool with
  | a :: rest => (some a, { d with pool := rest })
  | [] =>
    if dialOk then (some d.nextId, { d with nextId := d.nextId + 1 })
    else (none, d)

/-- `Dialer.PutClient`: put the client back into the pool. -/
def ClientDialer.PutClient (d : ClientDialer) (cli : Nat) : ClientDialer :=
  { d with pool := cli :: d.pool }

/-- `cli.Close()` on an operation's client: the client is destroyed and
never pooled again. -/
def ClientDialer.closeClient (d : ClientDialer) (cli : Nat) : ClientDialer :=
  { d with destroyed := cli :: d.destroyed }

/-- Result of one `Dialer.DialContext` call: whether a connection was
returned, the surfaced error text if any, the post-state, and how many
channel-open (`cli.DialContext`) attempts were made. -/
structure OpResult where
  ok : Bool
  errMsg : Option String
  state : ClientDialer
  attempts : Nat
  deriving DecidableEq

/-- `Dialer.DialContext` from src/client.go: acquire a client, make one
channel-open attempt; on success release the client and return the
connection; on failure release the client if the error is an
`isSSHError` (protocol-level) and close it otherwise
(transport-level), and return the error.  `outcomes` lists the results
successive channel-open attempts would produce; the function consumes
as many as it performs. -/
def ClientDialer.DialContext (d : ClientDialer) (dialOk : Bool)
    (outcomes : List (Option String)) : OpResult :=
  match d.GetClient dialOk with
  | (none, d1) => ⟨false, some "handshake failed", d1, 0⟩
  | (some cli, d1) =>
    match outcomes.headD none with
    | none => ⟨true, none, d1.PutClient cli, 1⟩
    | some msg =>
      if isSSHError msg then ⟨false, some msg, d1.PutClient cli, 1⟩
      else ⟨false, some msg, d1.closeClient cli, 1⟩

/-- `Dialer.CommandDialContext` from src/client.go (handle handling
only; the command string, pipes and watchers do not affect it):
acquire a client; on a `NewSession` failure release the client if the
error is an `isSSHError` and close it otherwise, returning the error;
once the session exists, `defer d.PutClient(cli)` is installed, so a
`sess.Start` failure returns the error with the client released
REGARDLESS of the error's class, and the success path also releases it
on return.  `sessionOutcome`/`startOutcome` are the environment's
results for the one `NewSession` and the one `Start` call; `attempts`
counts `NewSession` attempts, of which exactly one is ever made — no
retry. -/
def ClientDialer.CommandDialContext (d : ClientDialer) (dialOk : Bool)
    (sessionOutcome startOutcome : Option String) : OpResult :=
  match d.GetClient dialOk with
  | (none, d1) => ⟨false, some "handshake failed", d1, 0⟩
  | (some cli, d1) =>
    match sessionOutcome with
    | some msg =>
      if isSSHError msg then ⟨false, some msg, d1.PutClient cli, 1⟩
      else ⟨false, some msg, d1.closeClient cli, 1⟩
    | none =>
      match startOutcome with
      | some msg => ⟨false, some msg, d1.PutClient cli, 1⟩
      | none => ⟨true, none, d1.PutClient cli, 1⟩

/-- `Dialer.Listen` from src/client.go (handle handling only; the
address normalization does not touch the pool): acquire a client; on a
`cli.Listen` failure release the client if the error is an
`isSSHError` and close it otherwise, returning the error; on success
the client stays checked out by the returned listener, whose
`listenerWithCleanup.Close` releases it later.  `outcomes` lists the
results successive `cli.Listen` attempts would produce; exactly one is
ever consumed — no retry. -/
def ClientDialer.Listen (d : ClientDialer) (dialOk : Bool)
    (outcomes : List (Option String)) : OpResult :=
  match d.GetClient dialOk with
  | (none, d1) => ⟨false, some "handshake failed", d1, 0⟩
  | (some cli, d1) =>
    match outcomes.headD none with
    | none => ⟨true, none, d1, 1⟩
    | some msg =>
      if isSSHError msg then ⟨false, some msg, d1.PutClient cli, 1⟩
      else ⟨false, some msg, d1.closeClient cli, 1⟩

/-! ## `buildCmd` and Go's `strconv.Quote` (src/client.go)

The embedding covers the ASCII fragment of `strconv.Quote`: `"` and
`\` are backslash-escaped, printable ASCII (0x20–0x7e) passes through,
the named control escapes `\a \b \f \n \r \t \v` are used where Go
uses them, and the remaining ASCII control characters (and 0x7f) get a
two-digit lower-case `\xhh` escape.  Go's `\u`/`\U` escapes for
non-ASCII runes are not modelled; every theorem below restricts
arguments to ASCII. -/

/-- Lower-case hexadecimal digit, as Go's `strconv` emits. -/
def hexDigit (n : Nat) : Char :=
  if n < 10 then Char.ofNat (48 + n) else Char.ofNat (87 + n)

/-- Quote a single character as `strconv.Quote` does inside the
quotes (ASCII fragment). -/
def quoteChar (c : Char) : List Char :=
  if c = '"' ∨ c = '\\' then ['\\', c]
  else if 0x20 ≤ c.toNat ∧ c.toNat ≤ 0x7e then [c]
  else if c.toNat = 7 then ['\\', 'a']
  else if c.toNat = 8 then ['\\', 'b']
  else if c.toNat = 12 then ['\\', 'f']
  else if c.toNat = 10 then ['\\', 'n']
  else if c.toNat = 13 then ['\\', 'r']
  else if c.toNat = 9 then ['\\', 't']
  else if c.toNat = 11 then ['\\', 'v']
  else ['\\', 'x', hexDigit (c.toNat / 16 % 16), hexDigit (c.toNat % 16)]

/-- Body of a quoted string: each character quoted in sequence. -/
def quoteBody (s : String) : List Char :=
  s.data.flatMap quoteChar

/-- `strconv.Quote` (ASCII fragment): the escaped body wrapped in
double quotes. -/
def goQuote (s : String) : String :=
  ⟨'"' :: quoteBody s ++ ['"']⟩

/-- `buildCmd` from src/client.go: the command name followed by each
argument individually `strconv.Quote`d, joined with single spaces. -/
def buildCmd (name : String) (args : List String) : String :=
  String.intercalate " " (name :: args.map goQuote)

/-! ### A decoder witnessing that quoting preserves boundaries

`unquoteBody` reads an escaped body up to its closing double quote and
returns the decoded characters together with the input following the
closing quote.  It inverts `quoteBody` (theorems below), which is what
"argument boundaries are preserved" means: the argument list can be
recovered unambiguously from the joined command line. -/

/-- Value of a lower-case hexadecimal digit. -/
def hexVal (c : Char) : Option Nat :=
  if 48 ≤ c.toNat ∧ c.toNat ≤ 57 then some (c.toNat - 48)
  else if 97 ≤ c.toNat ∧ c.toNat ≤ 102 then some (c.toNat - 87)
  else none

/-- Decoded character of a single-letter escape. -/
def unescapeChar (c : Char) : Option Char :=
  if c = '"' then some '"'
  else if c = '\\' then some '\\'
  else if c = 'a' then some (Char.ofNat 7)
  else if c = 'b' then some (Char.ofNat 8)
  else if c = 'f' then some (Char.ofNat 12)
  else if c = 'n' then some (Char.ofNat 10)
  else if c = 'r' then some (Char.ofNat 13)
  else if c = 't' then some (Char.ofNat 9)
  else if c = 'v' then some (Char.ofNat 11)
  else none

/-- Read an escaped body up to the closing `"`; return the decoded
characters and the remaining input after that quote. -/
def unquoteBody : List Char → Option (List Char × List Char)
  | [] => none
  | c :: rest =>
    if c = '"' then some ([], rest)
    else if c = '\\' then
      match rest with
      | [] => none
      | e :: rest2 =>
        if e = 'x' then
          match rest2 with
          | hi :: lo :: rest3 =>
            match hexVal hi, hexVal lo, unquoteBody rest3 with
            | some h, some l, some (s, r) => some (Char.ofNat (16 * h + l) :: s, r)
            | _, _, _ => none
          | _ => none
        else
          match unescapeChar e, unquoteBody rest2 with
          | some d, some (s, r) => some (d :: s, r)
          | _, _ => none
    else
      match unquoteBody rest with
      | some (s, r) => some (c :: s, r)
      | none => none
  termination_by l => l.length
  decreasing_by all_goals (simp_all; try omega)

/-! ## Server authentication configuration (src/simple_server.go,
current iteration)

What matters for the claims is which callbacks `serverConfig` installs
and whether it sets `NoClientAuth`.  Host-key material and the external
`sshd.ParseAuthorized` parse are abstracted to their observable
outcome (`authorizedNonempty`: authorized data was supplied and parsed
to at least one key). -/

/-- `strconv.ParseBool`: the exact accepted spellings. -/
def parseBool (s : String) : Option Bool :=
  if s = "1" ∨ s = "t" ∨ s = "T" ∨ s = "TRUE" ∨ s = "true" ∨ s = "True" then
    some true
  else if s = "0" ∨ s = "f" ∨ s = "F" ∨ s = "FALSE" ∨ s = "false" ∨ s = "False" then
    some false
  else none

/-- The authentication-relevant inputs of one server URI:
`isPwd` — the URI userinfo carried a password;
`authorizedNonempty` — `authorized_data`/`authorized_file` material was
supplied and parsed to a non-empty key set;
`homeDirs` — the `home_dir` query values;
`authenticateRaw` — `Query().Get("authenticate")` (`""` when absent). -/
structure ServerAuthInputs where
  isPwd : Bool
  authorizedNonempty : Bool
  homeDirs : List String
  authenticateRaw : String
  deriving DecidableEq

/-- The callbacks `serverConfig` ends up installing, plus the
`NoClientAuth` flag.  The ssh library skips client authentication
entirely (accepts every principal without a credential) exactly when
`NoClientAuth` is set. -/
structure ServerAuthConfig where
  hasPasswordCallback : Bool
  hasPublicKeyCallback : Bool
  hasKeyboardInteractiveCallback : Bool
  noClientAuth : Bool
  deriving DecidableEq

/-- Whether the `home_dir` query enables the directory-based verifier:
a first value is present and non-empty. -/
def homeDirEnabled (homeDirs : List String) : Bool :=
  match homeDirs with
  | [] => false
  | h :: _ => h ≠ ""

/-- The callback/`NoClientAuth` decision of `serverConfig`:
`PasswordCallback` iff a password pair was configured; the `pks` list
gets one entry for a non-empty static authorized key set and one for
an enabled `home_dir`, and `PublicKeyCallback` is installed iff `pks`
is non-empty; `KeyboardInteractiveCallback` is never installed;
finally `NoClientAuth` is set iff `authenticate` parses false (parse
errors ignored, leaving false) and no callback was installed. -/
def serverConfigAuth (i : ServerAuthInputs) : ServerAuthConfig :=
  let hasPw := i.isPwd
  let pksCount :=
    (if i.authorizedNonempty then 1 else 0) +
    (if homeDirEnabled i.homeDirs then 1 else 0)
  let hasPk := pksCount ≠ 0
  let authenticate := (parseBool i.authenticateRaw).getD false
  { hasPasswordCallback := hasPw
    hasPublicKeyCallback := hasPk
    hasKeyboardInteractiveCallback := false
    noClientAuth := !authenticate && !hasPw && !hasPk }

/-! ## Client configuration (src/client.go `parseClientConfig`)

URL parsing, base64 decoding and `ssh.ParsePrivateKey` are external;
the model takes the userinfo and the per-identity parse outcomes as
inputs.  What the claims need is the host-key callback the config
carries: the source always installs `ssh.InsecureIgnoreHostKey()`. -/

/-- A host-key callback: hostname, remote address, presented key ↦
error or acceptance (`none` = no error). -/
def HostKeyCallback : Type := String → String → String → Option String

/-- The ssh library's `InsecureIgnoreHostKey`: a callback that returns
no error for every host key. -/
def insecureIgnoreHostKey : HostKeyCallback := fun _ _ _ => none

/-- The parts of `ssh.ClientConfig` the claims mention. -/
structure ClientCfg where
  user : String
  authCount : Nat
  hostKeyCallback : HostKeyCallback

/-- Inputs of `parseClientConfig` after URL parsing: the userinfo, and
whether each supplied identity datum parses as a private key. -/
structure ClientURIInputs where
  user : Option (String × Option String)
  identityParses : List Bool

/-- `parseClientConfig` from src/client.go: build the config with
`HostKeyCallback: ssh.InsecureIgnoreHostKey()`; add a password auth
method when the userinfo has a password; add one public-key auth
method per identity datum, failing the whole parse when any identity
datum does not parse. -/
def parseClientConfig (i : ClientURIInputs) : Option ClientCfg :=
  let user := match i.user with
    | none => ""
    | some (u, _) => u
  let pwdAuth := match i.user with
    | some (_, some _) => 1
    | _ => 0
  if i.identityParses.all (fun b => b) then
    some { user := user
           authCount := pwdAuth + i.identityParses.length
           hostKeyCallback := insecureIgnoreHostKey }
  else
    none

/-! ## Theorems -/

/-- C3: for every `Permission` rule and every argument: with an
allow-list present, `Allow` is true exactly on exact-match membership;
otherwise with a block-list present, true exactly on non-membership;
otherwise the rule's default; and a resource with no rule in the
document denies. -/
theorem c3_permission_rule_evaluation (doc : Permissions) (rule : Permission)
    (req args : String) :
    (List.lookup req doc = none → Permissions.Allow doc req args = false) ∧
    (List.lookup req doc = some rule →
      Permissions.Allow doc req args = Permission.Allow rule req args ∧
      (∀ l, rule.allows = some l →
        (Permission.Allow rule req args = true ↔ args ∈ l)) ∧
      (rule.allows = none → ∀ l, rule.blocks = some l →
        (Permission.Allow rule req args = true ↔ args ∉ l)) ∧
      (rule.allows = none → rule.blocks = none →
        Permission.Allow rule req args = rule.dflt)) := by
  refine ⟨fun h => ?_, fun h => ⟨?_, fun l hl => ?_, fun ha l hb => ?_, fun ha hb => ?_⟩⟩
  · simp [Permissions.Allow, h]
  · simp [Permissions.Allow, h]
  · simp [Permission.Allow, hl]
  · simp [Permission.Allow, ha, hb]
  · simp [Permission.Allow, ha, hb]

/-- Witness for C3 at the spec's own example rule
`Permission{default:false, allows:["read"]}`. -/
theorem c3_permission_rule_evaluation_witness :
    Permissions.Allow [("cmd", ⟨false, some ["read"], none⟩)] "cmd" "read" =
      Permission.Allow ⟨false, some ["read"], none⟩ "cmd" "read" ∧
    (Permission.Allow ⟨false, some ["read"], none⟩ "cmd" "read" = true ↔
      "read" ∈ ["read"]) ∧
    Permissions.Allow [("cmd", ⟨false, some ["read"], none⟩)] "other" "read" = false := by
  have h := c3_permission_rule_evaluation
    [("cmd", ⟨false, some ["read"], none⟩)] ⟨false, some ["read"], none⟩ "cmd" "read"
  have h2 := c3_permission_rule_evaluation
    [("cmd", ⟨false, some ["read"], none⟩)] ⟨false, some ["read"], none⟩ "other" "read"
  exact ⟨(h.2 (by rfl)).1, (h.2 (by rfl)).2.1 _ rfl, h2.1 (by rfl)⟩

/-- C9: a present-but-empty allow-list denies every argument even when
the default is true; a present-but-empty block-list (with no
allow-list) allows every argument even when the default is false; the
default is only consulted when both lists are absent. -/
theorem c9_empty_list_beats_default (p : Permission) (req args : String) :
    (p.allows = some [] → p.Allow req args = false) ∧
    (p.allows = none → p.blocks = some [] → p.Allow req args = true) := by
  constructor
  · intro h; simp [Permission.Allow, h]
  · intro ha hb; simp [Permission.Allow, ha, hb]

/-- Witness for C9: empty allow-list with default true denies; empty
block-list with default false allows. -/
theorem c9_empty_list_beats_default_witness :
    Permission.Allow ⟨true, some [], none⟩ "cmd" "x" = false ∧
    Permission.Allow ⟨false, none, some []⟩ "cmd" "x" = true :=
  ⟨(c9_empty_list_beats_default ⟨true, some [], none⟩ "cmd" "x").1 rfl,
   (c9_empty_list_beats_default ⟨false, none, some []⟩ "cmd" "x").2 rfl rfl⟩

/-- C4 counterexample: with a good document cached at time 0, a refresh
period of one second, and the file missing at time 2s (stale cache),
`Allow` denies — but the cache is NOT left empty: the old document is
still cached afterwards. -/
theorem c4_cache_not_left_empty_counterexample :
    ((⟨some [("d", ⟨true, none, none⟩)], second, 0⟩ : PermissionsFromFile).Allow
        .notExist (2 * second) "d" "x").result = false ∧
    ¬(((⟨some [("d", ⟨true, none, none⟩)], second, 0⟩ : PermissionsFromFile).Allow
        .notExist (2 * second) "d" "x").state.permissions = none) := by
  constructor
  · rfl
  · intro h
    simp [PermissionsFromFile.Allow, PermissionsFromFile.check,
      PermissionsFromFile.update, second] at h

/-- C4 (amended): when the cache must reload (no document cached or the
cache is stale) and the file does not exist, `Allow` denies and the
cache state is left entirely unchanged — the stale document, if any, is
retained but never trusted — so any later `Allow` call retries loading
and denies again while the file stays missing; an unreadable (but
existing) file likewise denies. -/
theorem c4_missing_file_fails_closed (s : PermissionsFromFile)
    (now now2 : Nat) (req args req2 args2 : String)
    (hstale : s.permissions = none ∨ now - s.latestTime > s.period)
    (hnow2 : now ≤ now2) :
    (s.Allow .notExist now req args).result = false ∧
    (s.Allow .notExist now req args).state = s ∧
    (s.Allow .notExist now req args).didUpdate = true ∧
    ((s.Allow .notExist now req args).state.Allow .notExist now2 req2 args2).didUpdate
      = true ∧
    ((s.Allow .notExist now req args).state.Allow .notExist now2 req2 args2).result
      = false ∧
    (s.Allow .otherError now req args).result = false := by
  have hstale2 : s.permissions = none ∨ now2 - s.latestTime > s.period := by
    rcases hstale with h | h
    · exact Or.inl h
    · exact Or.inr (by omega)
  constructor
  · simp [PermissionsFromFile.Allow, PermissionsFromFile.check,
      PermissionsFromFile.update, if_pos hstale]
  refine ⟨?_, ?_, ?_, ?_, ?_⟩ <;>
    simp [PermissionsFromFile.Allow, PermissionsFromFile.check,
      PermissionsFromFile.update, if_pos hstale, if_pos hstale2]

/-- Witness for C4 (amended) at the counterexample's configuration. -/
theorem c4_missing_file_fails_closed_witness :
    ((⟨some [("d", ⟨true, none, none⟩)], second, 0⟩ : PermissionsFromFile).Allow
        .notExist (2 * second) "d" "x").result = false ∧
    ((⟨some [("d", ⟨true, none, none⟩)], second, 0⟩ : PermissionsFromFile).Allow
        .notExist (2 * second) "d" "x").state =
      ⟨some [("d", ⟨true, none, none⟩)], second, 0⟩ ∧
    (((⟨some [("d", ⟨true, none, none⟩)], second, 0⟩ : PermissionsFromFile).Allow
        .notExist (2 * second) "d" "x").state.Allow
        .notExist (3 * second) "d" "x").didUpdate = true := by
  have h := c4_missing_file_fails_closed
    ⟨some [("d", ⟨true, none, none⟩)], second, 0⟩ (2 * second) (3 * second)
    "d" "x" "d" "x" (by right; simp [second]) (by simp [second])
  exact ⟨h.1, h.2.1, h.2.2.2.1⟩

/-- C5 counterexample: starting from a fresh cache with the minimum
one-second period, an `Allow` at time 0 against a malformed file resets
the document to empty and stamps time 0 — yet the next `Allow` only one
nanosecond later (well within the refresh period) attempts another
reload, refuting "subsequent Allow calls within the refresh period do
not attempt another reload". -/
theorem c5_reload_not_rate_limited_counterexample :
    ((NewPermissionsFromFile 0).Allow (.content none) 0 "d" "x").state.permissions
      = none ∧
    ((NewPermissionsFromFile 0).Allow (.content none) 0 "d" "x").state.latestTime
      = 0 ∧
    (1 : Nat) - 0 ≤ ((NewPermissionsFromFile 0).Allow (.content none) 0 "d" "x").state.period ∧
    (((NewPermissionsFromFile 0).Allow (.content none) 0 "d" "x").state.Allow
        (.content none) 1 "d" "x").didUpdate = true := by
  refine ⟨rfl, rfl, ?_, rfl⟩
  simp [NewPermissionsFromFile, PermissionsFromFile.Allow,
    PermissionsFromFile.check, PermissionsFromFile.update, second]

/-- C5 (amended): a reload that reads the file but fails to parse it
resets the cached document to nil and refreshes the timestamp, and the
call denies; but because a nil cached document always triggers a
reload, every subsequent `Allow` call attempts another reload even
within the refresh period — the rate limit only takes effect when the
file parses to a (possibly empty) document, in which case a call
within the period attempts no reload and an empty document denies
every request. -/
theorem c5_malformed_file_behaviour (s : PermissionsFromFile)
    (now now2 : Nat) (req args req2 args2 : String) (file2 : FileRead)
    (hstale : s.permissions = none ∨ now - s.latestTime > s.period)
    (hperiod : now2 - now ≤ s.period) :
    (s.Allow (.content none) now req args).result = false ∧
    (s.Allow (.content none) now req args).state.permissions = none ∧
    (s.Allow (.content none) now req args).state.latestTime = now ∧
    ((s.Allow (.content none) now req args).state.Allow file2 now2 req2 args2).didUpdate
      = true ∧
    (s.Allow (.content (some [])) now req args).state.permissions = some [] ∧
    ((s.Allow (.content (some [])) now req args).state.Allow file2 now2 req2 args2).didUpdate
      = false ∧
    ((s.Allow (.content (some [])) now req args).state.Allow file2 now2 req2 args2).result
      = false := by
  have h1 : s.Allow (.content none) now req args =
      ⟨false, ⟨none, s.period, now⟩, true⟩ := by
    simp [PermissionsFromFile.Allow, PermissionsFromFile.check,
      PermissionsFromFile.update, if_pos hstale]
  have h2 : s.Allow (.content (some [])) now req args =
      ⟨false, ⟨some [], s.period, now⟩, true⟩ := by
    simp [PermissionsFromFile.Allow, PermissionsFromFile.check,
      PermissionsFromFile.update, if_pos hstale, Permissions.Allow, List.lookup]
  have h3 : ∀ st : PermissionsFromFile, st.permissions = none →
      (st.Allow file2 now2 req2 args2).didUpdate = true := by
    intro st hst
    cases file2 with
    | notExist =>
      simp [PermissionsFromFile.Allow, PermissionsFromFile.check,
        PermissionsFromFile.update, hst]
    | otherError =>
      simp [PermissionsFromFile.Allow, PermissionsFromFile.check,
        PermissionsFromFile.update, hst]
    | content parsed =>
      cases parsed <;>
        simp [PermissionsFromFile.Allow, PermissionsFromFile.check,
          PermissionsFromFile.update, hst, Permissions.Allow]
  have h4 : (PermissionsFromFile.Allow ⟨some [], s.period, now⟩ file2 now2 req2 args2)
      = ⟨false, ⟨some [], s.period, now⟩, false⟩ := by
    have hlt : ¬ s.period < now2 - now := by omega
    simp [PermissionsFromFile.Allow, PermissionsFromFile.check, hlt,
      Permissions.Allow, List.lookup]
  refine ⟨by rw [h1], by rw [h1], by rw [h1], ?_, by rw [h2], by rw [h2, h4], by rw [h2, h4]⟩
  rw [h1]
  exact h3 _ rfl

/-- Witness for C5 (amended) at the fresh cache with the minimum
period, a malformed file, and a second call one nanosecond later. -/
theorem c5_malformed_file_behaviour_witness :
    ((NewPermissionsFromFile 0).Allow (.content none) 0 "d" "x").result = false ∧
    ((NewPermissionsFromFile 0).Allow (.content none) 0 "d" "x").state.permissions
      = none ∧
    (((NewPermissionsFromFile 0).Allow (.content none) 0 "d" "x").state.Allow
        (.content none) 1 "d" "x").didUpdate = true ∧
    (((NewPermissionsFromFile 0).Allow (.content (some [])) 0 "d" "x").state.Allow
        (.content none) 1 "d" "x").didUpdate = false := by
  have h := c5_malformed_file_behaviour (NewPermissionsFromFile 0) 0 1 "d" "x" "d" "x"
    (.content none) (Or.inl rfl) (by simp [NewPermissionsFromFile, second])
  exact ⟨h.1, h.2.1, h.2.2.2.1, h.2.2.2.2.2.1⟩

/-- C6: if no verifier is configured (no password pair, no static
authorized keys, no home-directory template) and the `authenticate`
query parameter is absent or parses false (or fails to parse), the
server sets `NoClientAuth`, accepting every principal without a
credential; if `authenticate` parses true, `NoClientAuth` stays unset
even with no verifier, so authentication remains required. -/
theorem c6_no_verifier_disables_auth (i : ServerAuthInputs) :
    ((parseBool i.authenticateRaw).getD false = false →
      ((serverConfigAuth i).noClientAuth = true ↔
        (i.isPwd = false ∧ i.authorizedNonempty = false ∧
          homeDirEnabled i.homeDirs = false))) ∧
    (parseBool i.authenticateRaw = some true →
      (serverConfigAuth i).noClientAuth = false) := by
  constructor
  · intro hfalse
    cases hpw : i.isPwd <;> cases hak : i.authorizedNonempty <;>
      cases hhd : homeDirEnabled i.homeDirs <;>
      simp [serverConfigAuth, hfalse, hpw, hak, hhd]
  · intro htrue
    simp [serverConfigAuth, htrue]

/-- Witness for C6: a bare URI (no credentials, no keys, no home dir,
no `authenticate`) disables authentication; adding `authenticate=true`
keeps it required. -/
theorem c6_no_verifier_disables_auth_witness :
    (serverConfigAuth ⟨false, false, [], ""⟩).noClientAuth = true ∧
    (serverConfigAuth ⟨false, false, [], "true"⟩).noClientAuth = false := by
  constructor
  · exact ((c6_no_verifier_disables_auth ⟨false, false, [], ""⟩).1 (by rfl)).mpr
      ⟨rfl, rfl, rfl⟩
  · exact (c6_no_verifier_disables_auth ⟨false, false, [], "true"⟩).2 (by rfl)

/-- C10: every client configuration `parseClientConfig` produces
carries `ssh.InsecureIgnoreHostKey()` as its host-key callback, which
returns no error for every hostname, remote address and presented
host key — the server's identity is never verified. -/
theorem c10_hostkey_never_verified (i : ClientURIInputs) (cfg : ClientCfg)
    (h : parseClientConfig i = some cfg) :
    ∀ hostname remoteAddr key, cfg.hostKeyCallback hostname remoteAddr key = none := by
  intro hostname remoteAddr key
  unfold parseClientConfig at h
  by_cases hall : i.identityParses.all (fun b => b)
  · rw [if_pos hall] at h
    cases h
    rfl
  · rw [if_neg hall] at h
    cases h

/-- Witness for C10 at a bare URI with no identities. -/
theorem c10_hostkey_never_verified_witness :
    ∃ cfg, parseClientConfig ⟨none, []⟩ = some cfg ∧
      cfg.hostKeyCallback "example.com" "203.0.113.7:22" "unknown-host-key" = none :=
  ⟨_, rfl, c10_hostkey_never_verified ⟨none, []⟩ _ rfl "example.com"
    "203.0.113.7:22" "unknown-host-key"⟩

/-- C7: a `getClient` blocked at capacity whose context is cancelled
returns the cancellation error with the whole pool state (in
particular the live count `conns`) unchanged; and when the pool is
below capacity and the handshake fails, the count — incremented before
the dial — is decremented back, leaving `conns` unchanged and the
error surfaced. -/
theorem c7_cancelled_or_failed_acquire_keeps_count (N : Nat) (s : PoolState)
    (c cf : Bool) :
    (N ≤ s.conns → (s.idle = [] ∨ cf = true) → ∀ dOk,
      (getClient N s true cf dOk).1 = .cancelledErr ∧
      (getClient N s true cf dOk).2 = s) ∧
    (s.conns < N →
      (getClient N s c cf false).1 = .dialErr ∧
      (getClient N s c cf false).2 =
        { { s with conns := s.conns + 1 } with
            conns := { s with conns := s.conns + 1 }.conns - 1 } ∧
      (getClient N s c cf false).2.conns = s.conns) := by
  constructor
  · intro hfull hcf dOk
    rcases hcf with hidle | hcf
    · simp [getClient, if_pos hfull, hidle]
    · cases hidle : s.idle with
      | nil => simp [getClient, if_pos hfull, hidle]
      | cons h rest => simp [getClient, if_pos hfull, hidle, hcf]
  · intro hlt
    have hnotfull : ¬ N ≤ s.conns := by omega
    refine ⟨?_, ?_, ?_⟩ <;> simp [getClient, if_neg hnotfull]

/-- Witness for C7: a pool of capacity 1 holding one live connection
with an empty channel: a cancelled acquire errors without touching the
state; and from the fresh pool a failed handshake leaves the count at
zero. -/
theorem c7_cancelled_or_failed_acquire_keeps_count_witness :
    (getClient 1 ⟨1, [], [0], [], 1⟩ true false true).1 = .cancelledErr ∧
    (getClient 1 ⟨1, [], [0], [], 1⟩ true false true).2 = ⟨1, [], [0], [], 1⟩ ∧
    (getClient 1 initPool false false false).1 = .dialErr ∧
    (getClient 1 initPool false false false).2.conns = 0 := by
  have h1 := (c7_cancelled_or_failed_acquire_keeps_count 1 ⟨1, [], [0], [], 1⟩
    false false).1 (by decide) (Or.inl rfl) true
  have h2 := (c7_cancelled_or_failed_acquire_keeps_count 1 initPool false
    false).2 (by decide)
  exact ⟨h1.1, h1.2, h2.1, h2.2.2⟩

/-- C2 counterexample: `DialContext` from src/client.go on a
transport-level failure (error text without "ssh: ") closes the handle
and surfaces the error after a single channel-open attempt, even
though the environment's next attempt would have succeeded — the
operation is not retried, refuting "the operation is retried exactly
once against a freshly acquired handle". -/
theorem c2_transport_failure_not_retried_counterexample :
    isSSHError "read: connection reset by peer" = false ∧
    (ClientDialer.DialContext ⟨[], [], 0⟩ true
        [some "read: connection reset by peer", none]) =
      ⟨false, some "read: connection reset by peer", ⟨[], [0], 1⟩, 1⟩ ∧
    ¬(ClientDialer.DialContext ⟨[], [], 0⟩ true
        [some "read: connection reset by peer", none]).attempts = 2 := by
  refine ⟨by decide, by rfl, by decide⟩

/-- C2 (amended): on a Dial/Command/Listen operation failure in
src/client.go, the error is surfaced to the caller after a single
attempt — the operation is never retried.  The handle's disposition is
classified by error text wherever the source classifies: on a
`DialContext` channel-open failure, a `Listen` failure, or a
`CommandDialContext` `NewSession` failure, an error containing
"ssh: " (protocol-level) releases the handle to the pool and any other
error (transport-level) closes it.  A `CommandDialContext` session
`Start` failure, however, releases the handle regardless of the
error's class, through the deferred `PutClient`. -/
theorem c2_error_classification_no_retry (d : ClientDialer) (cli : Nat)
    (rest : List Nat) (msg : String) (dOk : Bool) (outs : List (Option String)) :
    d.pool = cli :: rest →
    ((isSSHError msg = true →
      (d.DialContext dOk (some msg :: outs)).errMsg = some msg ∧
      (d.DialContext dOk (some msg :: outs)).attempts = 1 ∧
      (d.DialContext dOk (some msg :: outs)).state.pool = cli :: rest ∧
      (d.DialContext dOk (some msg :: outs)).state.destroyed = d.destroyed) ∧
    (isSSHError msg = false →
      (d.DialContext dOk (some msg :: outs)).errMsg = some msg ∧
      (d.DialContext dOk (some msg :: outs)).attempts = 1 ∧
      (d.DialContext dOk (some msg :: outs)).state.pool = rest ∧
      (d.DialContext dOk (some msg :: outs)).state.destroyed = cli :: d.destroyed) ∧
    (isSSHError msg = true →
      (d.Listen dOk (some msg :: outs)).errMsg = some msg ∧
      (d.Listen dOk (some msg :: outs)).attempts = 1 ∧
      (d.Listen dOk (some msg :: outs)).state.pool = cli :: rest ∧
      (d.Listen dOk (some msg :: outs)).state.destroyed = d.destroyed) ∧
    (isSSHError msg = false →
      (d.Listen dOk (some msg :: outs)).errMsg = some msg ∧
      (d.Listen dOk (some msg :: outs)).attempts = 1 ∧
      (d.Listen dOk (some msg :: outs)).state.pool = rest ∧
      (d.Listen dOk (some msg :: outs)).state.destroyed = cli :: d.destroyed) ∧
    (isSSHError msg = true →
      (d.CommandDialContext dOk (some msg) none).errMsg = some msg ∧
      (d.CommandDialContext dOk (some msg) none).attempts = 1 ∧
      (d.CommandDialContext dOk (some msg) none).state.pool = cli :: rest ∧
      (d.CommandDialContext dOk (some msg) none).state.destroyed = d.destroyed) ∧
    (isSSHError msg = false →
      (d.CommandDialContext dOk (some msg) none).errMsg = some msg ∧
      (d.CommandDialContext dOk (some msg) none).attempts = 1 ∧
      (d.CommandDialContext dOk (some msg) none).state.pool = rest ∧
      (d.CommandDialContext dOk (some msg) none).state.destroyed =
        cli :: d.destroyed) ∧
    ((d.CommandDialContext dOk none (some msg)).errMsg = some msg ∧
      (d.CommandDialContext dOk none (some msg)).attempts = 1 ∧
      (d.CommandDialContext dOk none (some msg)).state.pool = cli :: rest ∧
      (d.CommandDialContext dOk none (some msg)).state.destroyed = d.destroyed)) := by
  intro hpool
  refine ⟨fun hssh => ?_, fun hssh => ?_, fun hssh => ?_, fun hssh => ?_,
    fun hssh => ?_, fun hssh => ?_, ?_⟩ <;>
    simp [ClientDialer.DialContext, ClientDialer.Listen,
      ClientDialer.CommandDialContext, ClientDialer.GetClient, hpool,
      ClientDialer.PutClient, ClientDialer.closeClient] <;>
    simp [hssh]

/-- Witness for C2 (amended): a pooled client, one protocol-level and
one transport-level error text, exercised through all three
operations; the session-start failure releases the handle even though
its error text is transport-level. -/
theorem c2_error_classification_no_retry_witness :
    ((ClientDialer.DialContext ⟨[7], [], 8⟩ true
        [some "ssh: rejected: administratively prohibited"]).state.pool = [7] ∧
      (ClientDialer.DialContext ⟨[7], [], 8⟩ true
        [some "ssh: rejected: administratively prohibited"]).attempts = 1) ∧
    ((ClientDialer.DialContext ⟨[7], [], 8⟩ true
        [some "read: connection reset by peer"]).state.destroyed = [7] ∧
      (ClientDialer.DialContext ⟨[7], [], 8⟩ true
        [some "read: connection reset by peer"]).attempts = 1) ∧
    (ClientDialer.Listen ⟨[7], [], 8⟩ true
        [some "read: connection reset by peer"]).state.destroyed = [7] ∧
    (ClientDialer.CommandDialContext ⟨[7], [], 8⟩ true
        (some "read: connection reset by peer") none).state.destroyed = [7] ∧
    (ClientDialer.CommandDialContext ⟨[7], [], 8⟩ true
        none (some "read: connection reset by peer")).state.pool = [7] := by
  have h1 := c2_error_classification_no_retry ⟨[7], [], 8⟩ 7 []
    "ssh: rejected: administratively prohibited" true [] rfl
  have h2 := c2_error_classification_no_retry ⟨[7], [], 8⟩ 7 []
    "read: connection reset by peer" true [] rfl
  have hp := h1.1 (by decide)
  have ht := h2.2.1 (by decide)
  have hl := h2.2.2.2.1 (by decide)
  have hs := h2.2.2.2.2.2.1 (by decide)
  have hst := h2.2.2.2.2.2.2
  exact ⟨⟨hp.2.2.1, hp.2.1⟩, ⟨ht.2.2.2, ht.2.1⟩, hl.2.2.2, hs.2.2.2, hst.2.2.1⟩

/-! ### Pool invariant lemmas (for C1) -/

/-- The invariant transports along a permutation of the handle sets
that keeps the counter and the fresh-id source. -/
theorem PoolInv.of_perm {N : Nat} {s s2 : PoolState} (hinv : PoolInv N s)
    (hperm : s2.allHandles.Perm s.allHandles)
    (hconns : s2.conns = s.conns) (hnext : s2.nextId = s.nextId) :
    PoolInv N s2 := by
  obtain ⟨h1, h2, h3, h4⟩ := hinv
  have hlen := hperm.length_eq
  simp only [PoolState.allHandles, List.length_append] at hlen
  refine ⟨by omega, by omega, hperm.symm.nodup h3, ?_⟩
  intro h hmem
  rw [hnext]
  exact h4 h (hperm.mem_iff.mp hmem)

/-- The fresh pool satisfies the invariant. -/
theorem poolInv_init (N : Nat) : PoolInv N initPool := by
  refine ⟨Nat.zero_le N, rfl, List.nodup_nil, ?_⟩
  intro h hmem
  simp [initPool, PoolState.allHandles] at hmem

open List in
/-- Every pool operation preserves the invariant. -/
theorem poolInv_applyOp {N : Nat} {s : PoolState} (hinv : PoolInv N s)
    (op : PoolOp) : PoolInv N (applyOp N s op) := by
  obtain ⟨h1, h2, h3, h4⟩ := hinv
  cases op with
  | acquire c cf dOk =>
    show PoolInv N (getClient N s c cf dOk).2
    by_cases hfull : N ≤ s.conns
    · cases hidle : s.idle with
      | nil =>
        cases c <;> simp [getClient, if_pos hfull, hidle] <;> exact ⟨h1, h2, h3, h4⟩
      | cons a rest =>
        by_cases hccf : (c && cf) = true
        · simp [getClient, if_pos hfull, hidle, hccf]
          exact ⟨h1, h2, h3, h4⟩
        · simp [getClient, if_pos hfull, hidle, hccf]
          refine PoolInv.of_perm ⟨h1, h2, h3, h4⟩ ?_ rfl rfl
          simp only [PoolState.allHandles, hidle]
          calc rest ++ (a :: s.checkedOut) ++ s.destroyed
              = rest ++ a :: (s.checkedOut ++ s.destroyed) := by simp
            _ ~ a :: (rest ++ (s.checkedOut ++ s.destroyed)) := List.perm_middle
            _ = (a :: rest) ++ s.checkedOut ++ s.destroyed := by simp
    · cases dOk with
      | false =>
        simp [getClient, if_neg hfull]
        exact ⟨h1, h2, h3, h4⟩
      | true =>
        simp only [getClient, if_neg hfull, if_true, ite_true]
        have hfresh : s.nextId ∉ s.allHandles := by
          intro hmem
          exact absurd (h4 _ hmem) (by omega)
        have hperm : (s.idle ++ (s.nextId :: s.checkedOut) ++ s.destroyed).Perm
            (s.nextId :: s.allHandles) := by
          simp only [PoolState.allHandles]
          calc s.idle ++ (s.nextId :: s.checkedOut) ++ s.destroyed
              = s.idle ++ s.nextId :: (s.checkedOut ++ s.destroyed) := by simp
            _ ~ s.nextId :: (s.idle ++ (s.checkedOut ++ s.destroyed)) := List.perm_middle
            _ = s.nextId :: (s.idle ++ s.checkedOut ++ s.destroyed) := by simp
        refine ⟨?_, ?_, ?_, ?_⟩
        · show s.conns + 1 ≤ N
          omega
        · show s.idle.length + (s.nextId :: s.checkedOut).length + s.destroyed.length
            = s.conns + 1
          simp only [List.length_cons]
          omega
        · show (s.idle ++ (s.nextId :: s.checkedOut) ++ s.destroyed).Nodup
          exact hperm.symm.nodup (List.nodup_cons.mpr ⟨hfresh, h3⟩)
        · intro x hmem
          show x < s.nextId + 1
          have hx := hperm.mem_iff.mp hmem
          rcases List.mem_cons.mp hx with hh | hh
          · omega
          · have := h4 x hh
            omega
  | release h =>
    show PoolInv N (if h ∈ s.checkedOut ∧ s.idle.length < N
      then putClient s h else s)
    by_cases hg : h ∈ s.checkedOut ∧ s.idle.length < N
    · rw [if_pos hg]
      refine PoolInv.of_perm ⟨h1, h2, h3, h4⟩ ?_ rfl rfl
      simp only [putClient, PoolState.allHandles]
      have hco : s.checkedOut.Perm (h :: s.checkedOut.erase h) :=
        List.perm_cons_erase hg.1
      calc s.idle ++ [h] ++ s.checkedOut.erase h ++ s.destroyed
          = s.idle ++ (h :: s.checkedOut.erase h) ++ s.destroyed := by simp
        _ ~ s.idle ++ s.checkedOut ++ s.destroyed := by
            exact List.Perm.append_right _ (List.Perm.append_left _ hco.symm)
    · rw [if_neg hg]
      exact ⟨h1, h2, h3, h4⟩
  | destroy h =>
    show PoolInv N (if h ∈ s.checkedOut then destroyClient s h else s)
    by_cases hg : h ∈ s.checkedOut
    · rw [if_pos hg]
      refine PoolInv.of_perm ⟨h1, h2, h3, h4⟩ ?_ rfl rfl
      simp only [destroyClient, PoolState.allHandles]
      have hco : s.checkedOut.Perm (h :: s.checkedOut.erase h) :=
        List.perm_cons_erase hg
      calc s.idle ++ s.checkedOut.erase h ++ (h :: s.destroyed)
          = s.idle ++ (s.checkedOut.erase h ++ h :: s.destroyed) := by simp
        _ ~ s.idle ++ (h :: (s.checkedOut.erase h ++ s.destroyed)) :=
            List.Perm.append_left _ List.perm_middle
        _ ~ s.idle ++ (s.checkedOut ++ s.destroyed) := by
            refine List.Perm.append_left _ ?_
            exact List.Perm.append_right _ hco.symm
        _ = s.idle ++ s.checkedOut ++ s.destroyed := by simp
    · rw [if_neg hg]
      exact ⟨h1, h2, h3, h4⟩

/-- Every reachable pool state satisfies the invariant. -/
theorem poolInv_runPool (N : Nat) (ops : List PoolOp) :
    PoolInv N (runPool N ops) := by
  suffices hgen : ∀ (l : List PoolOp) (s : PoolState), PoolInv N s →
      PoolInv N (l.foldl (applyOp N) s) by
    exact hgen ops initPool (poolInv_init N)
  intro l
  induction l with
  | nil => intro s hs; exact hs
  | cons op rest ih => intro s hs; exact ih _ (poolInv_applyOp hs op)

/-- At a full pool, `getClient` creates no transport: the fresh-id
source and the counter are untouched and any handle it returns was an
idle one. -/
theorem getClient_full (N : Nat) (s : PoolState) (c cf dOk : Bool)
    (hfull : N ≤ s.conns) :
    (getClient N s c cf dOk).2.nextId = s.nextId ∧
    (getClient N s c cf dOk).2.conns = s.conns ∧
    ∀ h, (getClient N s c cf dOk).1 = .got h → h ∈ s.idle := by
  cases hidle : s.idle with
  | nil => cases c <;> simp [getClient, if_pos hfull, hidle]
  | cons a rest =>
    by_cases hccf : (c && cf) = true
    · simp [getClient, if_pos hfull, hidle, hccf]
    · simp [getClient, if_pos hfull, hidle, hccf]

/-- C1: for every capacity `N ≥ 1` and every sequence of acquire
(`getClient`, with any handshake/cancellation outcomes), release
(`putClient`) and holder-destroy steps, the number of live transports
never exceeds `N` (and neither does the `conns` counter); the handle
sets partition all created handles — each handle lives in exactly one
of idle / checked-out (by one caller) / destroyed, with no duplicates,
so destroyed handles are never re-queued; and once `conns` equals `N`
a further acquire creates no transport (fresh-id source and counter
untouched) and can only return an already-idle handle, the
cancellation error, or keep waiting. -/
theorem c1_pool_capacity_invariant (N : Nat) (hN : 1 ≤ N) (ops : List PoolOp) :
    (runPool N ops).liveCount ≤ N ∧
    (runPool N ops).conns ≤ N ∧
    (runPool N ops).allHandles.Nodup ∧
    (runPool N ops).idle.length + (runPool N ops).checkedOut.length +
      (runPool N ops).destroyed.length = (runPool N ops).conns ∧
    ((runPool N ops).conns = N → ∀ c cf dOk,
      (getClient N (runPool N ops) c cf dOk).2.nextId = (runPool N ops).nextId ∧
      (getClient N (runPool N ops) c cf dOk).2.conns = (runPool N ops).conns ∧
      ∀ h, (getClient N (runPool N ops) c cf dOk).1 = .got h →
        h ∈ (runPool N ops).idle) := by
  obtain ⟨h1, h2, h3, h4⟩ := poolInv_runPool N ops
  refine ⟨?_, h1, h3, h2, ?_⟩
  · show (runPool N ops).idle.length + (runPool N ops).checkedOut.length ≤ N
    omega
  · intro hfull c cf dOk
    exact getClient_full N (runPool N ops) c cf dOk (le_of_eq hfull.symm)

/-- Witness for C1 with capacity 1 and a trace that acquires, releases,
re-acquires and destroys. -/
theorem c1_pool_capacity_invariant_witness :
    (runPool 1 [.acquire false false true, .release 0,
        .acquire false false true, .destroy 0]).liveCount ≤ 1 ∧
    (runPool 1 [.acquire false false true, .release 0,
        .acquire false false true, .destroy 0]).conns ≤ 1 ∧
    (runPool 1 [.acquire false false true, .release 0,
        .acquire false false true, .destroy 0]).allHandles.Nodup := by
  have h := c1_pool_capacity_invariant 1 (by decide)
    [.acquire false false true, .release 0, .acquire false false true, .destroy 0]
  exact ⟨h.1, h.2.1, h.2.2.1⟩

/-! ### Quoting lemmas (for C8) -/

/-- `hexVal` inverts `hexDigit` on hex digit values. -/
theorem hexVal_hexDigit (n : Nat) (hn : n < 16) : hexVal (hexDigit n) = some n := by
  interval_cases n <;> rfl

/-- `unquoteBody` at a closing quote. -/
theorem unquoteBody_dquote (rest : List Char) :
    unquoteBody ('"' :: rest) = some ([], rest) := by
  rw [unquoteBody.eq_def]
  simp

/-- `unquoteBody` at a plain character. -/
theorem unquoteBody_plain (c : Char) (hq : c ≠ '"') (hb : c ≠ '\\')
    (rest : List Char) :
    unquoteBody (c :: rest) =
      match unquoteBody rest with
      | some (s, r) => some (c :: s, r)
      | none => none := by
  rw [unquoteBody.eq_def]
  simp [hq, hb]

/-- `unquoteBody` at a single-letter escape. -/
theorem unquoteBody_escape (e : Char) (hx : e ≠ 'x') (rest : List Char) :
    unquoteBody ('\\' :: e :: rest) =
      match unescapeChar e, unquoteBody rest with
      | some d, some (s, r) => some (d :: s, r)
      | _, _ => none := by
  rw [unquoteBody.eq_def]
  simp [hx]

/-- `unquoteBody` at a `\xhh` escape. -/
theorem unquoteBody_hex (hi lo : Char) (rest : List Char) :
    unquoteBody ('\\' :: 'x' :: hi :: lo :: rest) =
      match hexVal hi, hexVal lo, unquoteBody rest with
      | some h, some l, some (s, r) => some (Char.ofNat (16 * h + l) :: s, r)
      | _, _, _ => none := by
  rw [unquoteBody.eq_def]
  simp

/-- Decoding inverts `quoteChar` for ASCII characters, one character at
a time. -/
theorem unquoteBody_quoteChar (c : Char) (hc : c.toNat < 128) {l s2 r : List Char}
    (hl : unquoteBody l = some (s2, r)) :
    unquoteBody (quoteChar c ++ l) = some (c :: s2, r) := by
  by_cases h1 : c = '"' ∨ c = '\\'
  · have hqc : quoteChar c = ['\\', c] := by simp [quoteChar, h1]
    have hcx : c ≠ 'x' := by rcases h1 with h | h <;> subst h <;> decide
    rw [hqc]
    show unquoteBody ('\\' :: c :: l) = some (c :: s2, r)
    rw [unquoteBody_escape c hcx l]
    have hu : unescapeChar c = some c := by rcases h1 with h | h <;> subst h <;> rfl
    rw [hu, hl]
  · push_neg at h1
    obtain ⟨hq, hb⟩ := h1
    by_cases h2 : 0x20 ≤ c.toNat ∧ c.toNat ≤ 0x7e
    · have hqc : quoteChar c = [c] := by simp [quoteChar, hq, hb, h2]
      rw [hqc]
      show unquoteBody (c :: l) = some (c :: s2, r)
      rw [unquoteBody_plain c hq hb l, hl]
    · by_cases h7 : c.toNat = 7
      · have hqc : quoteChar c = ['\\', 'a'] := by simp [quoteChar, hq, hb, h2, h7]
        rw [hqc]
        show unquoteBody ('\\' :: 'a' :: l) = some (c :: s2, r)
        rw [unquoteBody_escape 'a' (by decide) l]
        have hu : unescapeChar 'a' = some (Char.ofNat 7) := rfl
        rw [hu, hl]
        have hcc : Char.ofNat 7 = c := by rw [← h7, Char.ofNat_toNat]
        rw [hcc]
      · by_cases h8 : c.toNat = 8
        · have hqc : quoteChar c = ['\\', 'b'] := by simp [quoteChar, hq, hb, h2, h7, h8]
          rw [hqc]
          show unquoteBody ('\\' :: 'b' :: l) = some (c :: s2, r)
          rw [unquoteBody_escape 'b' (by decide) l]
          have hu : unescapeChar 'b' = some (Char.ofNat 8) := rfl
          rw [hu, hl]
          have hcc : Char.ofNat 8 = c := by rw [← h8, Char.ofNat_toNat]
          rw [hcc]
        · by_cases h12 : c.toNat = 12
          · have hqc : quoteChar c = ['\\', 'f'] := by
              simp [quoteChar, hq, hb, h2, h7, h8, h12]
            rw [hqc]
            show unquoteBody ('\\' :: 'f' :: l) = some (c :: s2, r)
            rw [unquoteBody_escape 'f' (by decide) l]
            have hu : unescapeChar 'f' = some (Char.ofNat 12) := rfl
            rw [hu, hl]
            have hcc : Char.ofNat 12 = c := by rw [← h12, Char.ofNat_toNat]
            rw [hcc]
          · by_cases h10 : c.toNat = 10
            · have hqc : quoteChar c = ['\\', 'n'] := by
                simp [quoteChar, hq, hb, h2, h7, h8, h12, h10]
              rw [hqc]
              show unquoteBody ('\\' :: 'n' :: l) = some (c :: s2, r)
              rw [unquoteBody_escape 'n' (by decide) l]
              have hu : unescapeChar 'n' = some (Char.ofNat 10) := rfl
              rw [hu, hl]
              have hcc : Char.ofNat 10 = c := by rw [← h10, Char.ofNat_toNat]
              rw [hcc]
            · by_cases h13 : c.toNat = 13
              · have hqc : quoteChar c = ['\\', 'r'] := by
                  simp [quoteChar, hq, hb, h2, h7, h8, h12, h10, h13]
                rw [hqc]
                show unquoteBody ('\\' :: 'r' :: l) = some (c :: s2, r)
                rw [unquoteBody_escape 'r' (by decide) l]
                have hu : unescapeChar 'r' = some (Char.ofNat 13) := rfl
                rw [hu, hl]
                have hcc : Char.ofNat 13 = c := by rw [← h13, Char.ofNat_toNat]
                rw [hcc]
              · by_cases h9 : c.toNat = 9
                · have hqc : quoteChar c = ['\\', 't'] := by
                    simp [quoteChar, hq, hb, h2, h7, h8, h12, h10, h13, h9]
                  rw [hqc]
                  show unquoteBody ('\\' :: 't' :: l) = some (c :: s2, r)
                  rw [unquoteBody_escape 't' (by decide) l]
                  have hu : unescapeChar 't' = some (Char.ofNat 9) := rfl
                  rw [hu, hl]
                  have hcc : Char.ofNat 9 = c := by rw [← h9, Char.ofNat_toNat]
                  rw [hcc]
                · by_cases h11 : c.toNat = 11
                  · have hqc : quoteChar c = ['\\', 'v'] := by
                      simp [quoteChar, hq, hb, h2, h7, h8, h12, h10, h13, h9, h11]
                    rw [hqc]
                    show unquoteBody ('\\' :: 'v' :: l) = some (c :: s2, r)
                    rw [unquoteBody_escape 'v' (by decide) l]
                    have hu : unescapeChar 'v' = some (Char.ofNat 11) := rfl
                    rw [hu, hl]
                    have hcc : Char.ofNat 11 = c := by rw [← h11, Char.ofNat_toNat]
                    rw [hcc]
                  · have hqc : quoteChar c =
                        ['\\', 'x', hexDigit (c.toNat / 16 % 16),
                          hexDigit (c.toNat % 16)] := by
                      simp [quoteChar, hq, hb, h2, h7, h8, h12, h10, h13, h9, h11]
                    rw [hqc]
                    show unquoteBody ('\\' :: 'x' :: hexDigit (c.toNat / 16 % 16) ::
                      hexDigit (c.toNat % 16) :: l) = some (c :: s2, r)
                    rw [unquoteBody_hex, hexVal_hexDigit _ (by omega),
                      hexVal_hexDigit _ (by omega), hl]
                    have hsum : 16 * (c.toNat / 16 % 16) + c.toNat % 16 = c.toNat := by
                      omega
                    show some (Char.ofNat (16 * (c.toNat / 16 % 16) + c.toNat % 16)
                      :: s2, r) = some (c :: s2, r)
                    rw [hsum, Char.ofNat_toNat]

/-- Decoding inverts the quoted body of a whole ASCII string, handing
back exactly the input that followed the closing quote. -/
theorem unquoteBody_quoteList (cs : List Char) (hs : ∀ c ∈ cs, c.toNat < 128)
    (rest : List Char) :
    unquoteBody (cs.flatMap quoteChar ++ '"' :: rest) = some (cs, rest) := by
  induction cs with
  | nil => simpa using unquoteBody_dquote rest
  | cons c cs2 ih =>
    have hc := hs c (by simp)
    have ih2 := ih (fun x hx => hs x (by simp [hx]))
    simp only [List.flatMap_cons, List.append_assoc]
    exact unquoteBody_quoteChar c hc ih2

/-- Character data of `String.intercalate.go`. -/
theorem intercalate_go_data (acc s : String) (l : List String) :
    (String.intercalate.go acc s l).data =
      acc.data ++ l.flatMap (fun t => s.data ++ t.data) := by
  induction l generalizing acc with
  | nil => simp [String.intercalate.go]
  | cons a as ih =>
    simp [String.intercalate.go, ih]

/-- Character data of a built command line: the name followed, for each
argument, by one space and the quoted argument. -/
theorem buildCmd_data (name : String) (args : List String) :
    (buildCmd name args).data =
      name.data ++ args.flatMap (fun a => ' ' :: (goQuote a).data) := by
  unfold buildCmd String.intercalate
  rw [intercalate_go_data]
  congr 1
  induction args with
  | nil => rfl
  | cons a as ih =>
    simp only [List.map_cons, List.flatMap_cons, ih]
    rfl

/-- Strings with equal character data are equal. -/
theorem string_data_inj {a b : String} (h : a.data = b.data) : a = b := by
  cases a
  cases b
  exact congrArg String.mk h

/-- A space-free prefix followed by `[]` or a space-led suffix
decomposes uniquely. -/
theorem name_tokens_split (n1 n2 t1 t2 : List Char)
    (h1 : ' ' ∉ n1) (h2 : ' ' ∉ n2)
    (ht1 : t1 = [] ∨ ∃ r, t1 = ' ' :: r) (ht2 : t2 = [] ∨ ∃ r, t2 = ' ' :: r)
    (he : n1 ++ t1 = n2 ++ t2) : n1 = n2 ∧ t1 = t2 := by
  induction n1 generalizing n2 with
  | nil =>
    cases n2 with
    | nil => simpa using he
    | cons b bs =>
      exfalso
      rcases ht1 with h | ⟨r, hr⟩
      · subst h
        simp at he
      · subst hr
        have hsp : ' ' = b := by
          have := congrArg (fun l => l.head?) he
          simpa using this
        exact h2 (by rw [hsp]; exact List.mem_cons_self b bs)
  | cons a as ih =>
    cases n2 with
    | nil =>
      exfalso
      rcases ht2 with h | ⟨r, hr⟩
      · subst h
        simp at he
      · subst hr
        have hsp : a = ' ' := by
          have := congrArg (fun l => l.head?) he
          simpa using this
        exact h1 (by rw [← hsp]; exact List.mem_cons_self a as)
    | cons b bs =>
      have hab : a = b := by
        have := congrArg (fun l => l.head?) he
        simpa using this
      subst hab
      have hrest : as ++ t1 = bs ++ t2 := by
        have := congrArg List.tail he
        simpa using this
      have hin := ih bs (fun hmem => h1 (List.mem_cons_of_mem _ hmem))
        (fun hmem => h2 (List.mem_cons_of_mem _ hmem)) hrest
      exact ⟨by rw [hin.1], hin.2⟩

/-- The space-joined quoted-token lists of two ASCII argument lists
agree only when the argument lists agree. -/
theorem tokensChars_inj (a1 : List String) (a2 : List String)
    (h1 : ∀ s ∈ a1, ∀ c ∈ s.data, c.toNat < 128)
    (h2 : ∀ s ∈ a2, ∀ c ∈ s.data, c.toNat < 128)
    (he : a1.flatMap (fun a => ' ' :: (goQuote a).data)
        = a2.flatMap (fun a => ' ' :: (goQuote a).data)) : a1 = a2 := by
  induction a1 generalizing a2 with
  | nil =>
    cases a2 with
    | nil => rfl
    | cons b bs => simp at he
  | cons a as ih =>
    cases a2 with
    | nil => simp at he
    | cons b bs =>
      simp only [List.flatMap_cons, List.cons_append, List.cons.injEq] at he
      obtain ⟨-, he2⟩ := he
      have hbody : quoteBody a ++ '"' :: (as.flatMap (fun x => ' ' :: (goQuote x).data))
          = quoteBody b ++ '"' :: (bs.flatMap (fun x => ' ' :: (goQuote x).data)) := by
        have ha2 : (goQuote a).data = '"' :: (quoteBody a ++ ['"']) := rfl
        have hb2 : (goQuote b).data = '"' :: (quoteBody b ++ ['"']) := rfl
        rw [ha2, hb2] at he2
        simpa using he2
      have u1 := unquoteBody_quoteList a.data (h1 a (by simp))
        (as.flatMap (fun x => ' ' :: (goQuote x).data))
      have u2 := unquoteBody_quoteList b.data (h2 b (by simp))
        (bs.flatMap (fun x => ' ' :: (goQuote x).data))
      have hq1 : quoteBody a = a.data.flatMap quoteChar := rfl
      have hq2 : quoteBody b = b.data.flatMap quoteChar := rfl
      rw [← hq1] at u1
      rw [← hq2] at u2
      rw [hbody] at u1
      have hu := u1.symm.trans u2
      simp only [Option.some.injEq, Prod.mk.injEq] at hu
      obtain ⟨hdata, htail⟩ := hu
      have hab : a = b := string_data_inj hdata
      have hrest : as = bs := ih bs (fun s hs => h1 s (List.mem_cons_of_mem _ hs))
        (fun s hs => h2 s (List.mem_cons_of_mem _ hs)) htail
      rw [hab, hrest]

/-- C8: `buildCmd` joins the unquoted command name with each argument
individually `strconv.Quote`d, separated by single spaces; and this
preserves argument boundaries: for a space-free name and ASCII
arguments the built command line determines the name and the argument
list uniquely, whatever whitespace or special characters the arguments
contain. -/
theorem c8_buildCmd_preserves_boundaries (n1 n2 : String) (a1 a2 : List String)
    (hn1 : ' ' ∉ n1.data) (hn2 : ' ' ∉ n2.data)
    (h1 : ∀ s ∈ a1, ∀ c ∈ s.data, c.toNat < 128)
    (h2 : ∀ s ∈ a2, ∀ c ∈ s.data, c.toNat < 128) :
    buildCmd n1 a1 = String.intercalate " " (n1 :: a1.map goQuote) ∧
    (buildCmd n1 a1 = buildCmd n2 a2 → n1 = n2 ∧ a1 = a2) := by
  refine ⟨rfl, fun he => ?_⟩
  have hd := congrArg String.data he
  rw [buildCmd_data, buildCmd_data] at hd
  have hsh1 : a1.flatMap (fun a => ' ' :: (goQuote a).data) = [] ∨
      ∃ r, a1.flatMap (fun a => ' ' :: (goQuote a).data) = ' ' :: r := by
    cases a1 with
    | nil => exact Or.inl rfl
    | cons x xs =>
      exact Or.inr ⟨(goQuote x).data ++ xs.flatMap (fun a => ' ' :: (goQuote a).data),
        by simp⟩
  have hsh2 : a2.flatMap (fun a => ' ' :: (goQuote a).data) = [] ∨
      ∃ r, a2.flatMap (fun a => ' ' :: (goQuote a).data) = ' ' :: r := by
    cases a2 with
    | nil => exact Or.inl rfl
    | cons x xs =>
      exact Or.inr ⟨(goQuote x).data ++ xs.flatMap (fun a => ' ' :: (goQuote a).data),
        by simp⟩
  have hsplit := name_tokens_split n1.data n2.data _ _ hn1 hn2 hsh1 hsh2 hd
  exact ⟨string_data_inj hsplit.1, tokensChars_inj a1 a2 h1 h2 hsplit.2⟩

/-- Witness for C8: the spec's `printf`-style example; an argument with
an embedded space stays one argument, and moving the space across the
argument boundary gives a different command line. -/
theorem c8_buildCmd_preserves_boundaries_witness :
    buildCmd "printf" ["%s", "a b"] =
      String.intercalate " " ("printf" :: (["%s", "a b"].map goQuote)) ∧
    (buildCmd "printf" ["%s", "a b"] = buildCmd "printf" ["%s a", "b"] →
      "printf" = "printf" ∧ ["%s", "a b"] = ["%s a", "b"]) := by
  have h := c8_buildCmd_preserves_boundaries "printf" "printf"
    ["%s", "a b"] ["%s a", "b"] (by decide) (by decide) (by decide) (by decide)
  exact ⟨h.1, h.2⟩

end Sshproxy
